import Mathlib

/-!
# Verification of the `llvm-dummy-lang` front end (`src/lang.cpp`)

A shallow embedding of the three stages of the front end — the lexical
scanner (`get_token`), the precedence-climbing recursive-descent parser
(`parse_expression` and friends), and the AST-to-IR lowering pass
(`codegen` methods) — together with theorems settling the specification
claims about them.

Conventions of the embedding:
* `getchar` reading from stdin is modelled by consuming a `List Char`;
  end-of-file (`EOF`) is `Option.none` for the pending character.
* C++ `double` payloads are modelled as exact rationals `ℚ`; the inputs
  involved are small decimal literals, exactly representable.
* Parser functions keep the global token cursor in a `List Token` whose
  head plays the role of `current_token`; each parse function returns the
  optional result value (`none` = `nullptr` after `log_error`) together
  with the updated token stream.  Loops in the C++ source become fuel-based
  recursion; the fuel only needs to exceed the input length.
* The LLVM `Module` is modelled as the ordered list of its functions, each
  carrying its name and its argument names (`Function::arg_size`,
  `Argument::getName`).  Instruction emission through the `IRBuilder` is
  modelled by building a pure IR value tree; lowering failure
  (`log_error_v` returning `nullptr`) is `Except.error` carrying the
  message text from the source.
-/

namespace DummyLang

/-! ## Character classification (ASCII, as used via `<cctype>`) -/

def isspace (c : Char) : Bool :=
  c = ' ' || c = '\t' || c = '\n' || c = '\r' || c = '\x0b' || c = '\x0c'

def isalpha (c : Char) : Bool :=
  ('a' ≤ c && c ≤ 'z') || ('A' ≤ c && c ≤ 'Z')

def isdigit (c : Char) : Bool :=
  '0' ≤ c && c ≤ '9'

def isalnum (c : Char) : Bool :=
  isalpha c || isdigit c

/-! ## Tokens

`get_token` returns an `int`: one of the negative `Tokens` enumerators
(with payloads left in the globals `identifier_str` / `num_val`) or a raw
character.  We fold the payload into the token. -/

inductive Token where
  | eof : Token
  | kwDef : Token
  | kwExtern : Token
  | ident (s : String) : Token
  | number (v : ℚ) : Token
  | char (c : Char) : Token
deriving Repr, DecidableEq

/-! ## The scanner (`get_token`, src/lang.cpp lines 43–97) -/

/-- `getchar()`: consume one character from the remaining input;
`none` is `EOF`. -/
def getchar : List Char → Option Char × List Char
  | [] => (none, [])
  | c :: cs => (some c, cs)

/-- Lines 46–47: `while (isspace(last_char)) last_char = getchar();` -/
def skipSpaces : Option Char → List Char → Option Char × List Char
  | none, inp => (none, inp)
  | some c, inp =>
    if isspace c then
      match inp with
      | [] => (none, [])
      | d :: rest => skipSpaces (some d) rest
    else (some c, inp)

/-- Lines 52–53: `while (isalnum(last_char = getchar())) identifier_str += last_char;` -/
def scanIdentLoop : String → List Char → String × Option Char × List Char
  | acc, [] => (acc, none, [])
  | acc, c :: inp =>
    if isalnum c then scanIdentLoop (acc.push c) inp else (acc, some c, inp)

/-- Lines 69–75: the number-scanning `do { ... } while` loop.  Each
iteration reads `last_char = getchar()`, bumps `num_points` on a `'.'`,
and continues while the character is a digit or a point and at most one
point has been counted.  Note that the loop never appends the characters
it reads to any buffer (the local `number_str` of line 66 stays empty).
Returns the final `num_points`, pending character and remaining input. -/
def scanNumberLoop : Nat → List Char → Nat × Option Char × List Char
  | pts, [] => (pts, none, [])
  | pts, c :: inp =>
    let pts' := if c = '.' then pts + 1 else pts
    if (isdigit c || c = '.') && pts' ≤ 1 then scanNumberLoop pts' inp
    else (pts', some c, inp)

/-- Lines 82–84: `do { last_char = getchar(); } while (last_char != EOF
&& last_char != '\n' && last_char != '\r');` -/
def skipCommentLoop : List Char → Option Char × List Char
  | [] => (none, [])
  | c :: inp =>
    if c ≠ '\n' && c ≠ '\r' then skipCommentLoop inp else (some c, inp)

/-- `strtod` applied to a string of digits with at most one decimal
point: standard decimal parsing, in exact rational arithmetic.
`strtod("")` (no conversion performed) yields `0`. -/
def parseDecimalQ (s : String) : ℚ :=
  let digitsInt := (s.toList.takeWhile (fun c => c ≠ '.')).filter isdigit
  let digitsFrac := ((s.toList.dropWhile (fun c => c ≠ '.')).drop 1).filter isdigit
  let intVal : ℕ := digitsInt.foldl (fun a c => a * 10 + (c.toNat - '0'.toNat)) 0
  let fracVal : ℕ := digitsFrac.foldl (fun a c => a * 10 + (c.toNat - '0'.toNat)) 0
  (intVal : ℚ) + (fracVal : ℚ) / ((10 : ℚ) ^ digitsFrac.length)

/-- `get_token` (lines 43–97).  State: the pending `last_char` and the
remaining input.  The fuel bounds the recursive `return get_token();`
after a comment (line 87); fuel `inp.length + 1` always suffices. -/
def getTokenFuel : Nat → Option Char → List Char → Token × Option Char × List Char
  | 0, lc, inp => (Token.eof, lc, inp)
  | fuel + 1, lc0, inp0 =>
    let (lc, inp) := skipSpaces lc0 inp0
    match lc with
    | none => (Token.eof, none, inp)   -- line 90: `if (last_char == EOF)`
    | some c =>
      if isalpha c then
        -- lines 49–61
        let (idStr, lc', inp') := scanIdentLoop (String.singleton c) inp
        if idStr = "def" then (Token.kwDef, lc', inp')
        else if idStr = "extern" then (Token.kwExtern, lc', inp')
        else (Token.ident idStr, lc', inp')
      else if isdigit c || c = '.' then
        -- lines 65–78: `std::string number_str;` (line 66) is declared and
        -- never appended to inside the loop; `num_val = strtod(number_str)`.
        let number_str : String := ""
        let (_, lc', inp') := scanNumberLoop 0 inp
        (Token.number (parseDecimalQ number_str), lc', inp')
      else if c = '#' then
        -- lines 81–88
        let (lc', inp') := skipCommentLoop inp
        match lc' with
        | none => (Token.eof, none, inp')  -- falls through to the EOF check
        | some _ => getTokenFuel fuel lc' inp'
      else
        -- lines 93–96: return the character itself, advance
        let (lc', inp') := getchar inp
        (Token.char c, lc', inp')

/-- `get_token` with enough fuel for its input; the C++ `last_char`
static is initialised to `' '` (line 44). -/
def getToken (lc : Option Char) (inp : List Char) : Token × Option Char × List Char :=
  getTokenFuel (inp.length + 1) lc inp

/-! ## The AST (src/lang.cpp lines 106–180) -/

inductive Expr where
  | num (v : ℚ) : Expr                                -- NumberExprAST
  | var (name : String) : Expr                        -- VariableExprAST
  | binop (op : Char) (lhs rhs : Expr) : Expr         -- BinaryExprAST
  | call (callee : String) (args : List Expr) : Expr  -- CallExprAST
deriving Repr

/-- `PrototypeAST`: a name plus argument names. -/
structure Prototype where
  name : String
  args : List String
deriving Repr, DecidableEq

/-! ## The parser (src/lang.cpp lines 189–382)

The token stream plays the role of the globals: `current_token` is the
head of the list (`Token.eof` when exhausted, as `get_token` keeps
returning `TOK_EOF` at end of input), `get_next_token` is `List.tail`. -/

def cur (ts : List Token) : Token := ts.headD Token.eof

def adv (ts : List Token) : List Token := ts.tail

/-- The precedence table installed by `main` (lines 587–590), read
through `get_token_precedence` (lines 193–202): non-character tokens
(the negative enumerators) fail `isascii` and get `-1`; characters
absent from the map read a default-constructed `0` and also get `-1`. -/
def getTokenPrecedence (t : Token) : Int :=
  match t with
  | Token.char c =>
    if c = '<' then 10
    else if c = '+' then 20
    else if c = '-' then 20
    else if c = '*' then 40
    else -1
  | _ => -1

/-- Extract the raw character of `current_token` for `int binop =
current_token;` (line 301).  Only reached when `getTokenPrecedence`
is positive, hence on a `Token.char`; the default is arbitrary. -/
def curChar (t : Token) : Char :=
  match t with
  | Token.char c => c
  | _ => '?'

mutual

/-- `parse_number_expression` (lines 217–221): build a `NumberExprAST`
from `num_val` and advance. -/
def parseNumberExpression (ts : List Token) : Option Expr × List Token :=
  match cur ts with
  | Token.number v => (some (Expr.num v), adv ts)
  | _ => (none, ts)  -- unreachable: only dispatched on TOK_NUMBER

/-- `parse_paren_expression` (lines 224–237). -/
def parseParenExpression (fuel : Nat) (ts : List Token) : Option Expr × List Token :=
  match fuel with
  | 0 => (none, ts)
  | fuel + 1 =>
    let ts := adv ts  -- eat (
    match parseExpression fuel ts with
    | (none, ts') => (none, ts')
    | (some expr, ts') =>
      if cur ts' = Token.char ')' then (some expr, adv ts')
      else (none, ts')  -- log_error "expected ')'"

/-- `parse_identifier_expression` (lines 242–273).  Note lines 255–258:
when `parse_expression` fails for an argument, the result is simply not
pushed — there is no early return — and the loop continues with the
`,` / `)` checks. -/
def parseIdentifierExpression (fuel : Nat) (ts : List Token) : Option Expr × List Token :=
  match fuel with
  | 0 => (none, ts)
  | fuel + 1 =>
    match cur ts with
    | Token.ident identifierName =>
      let ts := adv ts  -- eat identifier
      if cur ts ≠ Token.char '(' then (some (Expr.var identifierName), ts)
      else
        let ts := adv ts  -- eat (
        if cur ts = Token.char ')' then
          (some (Expr.call identifierName []), adv ts)
        else
          match parseCallArgsLoop fuel [] ts with
          | (none, ts') => (none, ts')
          | (some args, ts') =>
            (some (Expr.call identifierName args), adv ts')  -- eat )
    | _ => (none, ts)  -- unreachable: only dispatched on TOK_IDENTIFIER

/-- The `while (true)` argument loop of lines 255–267.  Returns the
collected arguments once `)` is the current token (which the caller then
eats), or `none` on the `expected ')' or ','` error. -/
def parseCallArgsLoop (fuel : Nat) (acc : List Expr) (ts : List Token) :
    Option (List Expr) × List Token :=
  match fuel with
  | 0 => (none, ts)
  | fuel + 1 =>
    let (acc, ts) :=
      match parseExpression fuel ts with
      | (some arg, ts') => (acc ++ [arg], ts')
      | (none, ts') => (acc, ts')   -- failed argument: not pushed, no early return
    if cur ts = Token.char ')' then (some acc, ts)
    else if cur ts ≠ Token.char ',' then (none, ts)  -- "expected ')' or ',' "
    else parseCallArgsLoop fuel acc (adv ts)

/-- `parse_primary` (lines 279–290). -/
def parsePrimary (fuel : Nat) (ts : List Token) : Option Expr × List Token :=
  match fuel with
  | 0 => (none, ts)
  | fuel + 1 =>
    match cur ts with
    | Token.ident _ => parseIdentifierExpression fuel ts
    | Token.number _ => parseNumberExpression ts
    | Token.char '(' => parseParenExpression fuel ts
    | _ => (none, ts)  -- log_error "unknown token"

/-- `parse_bin_op_rhs` (lines 294–319).  The `while (true)` loop is the
tail-recursive call with the same `expr_prec` after merging. -/
def parseBinOpRhs (fuel : Nat) (exprPrec : Int) (lhs : Expr) (ts : List Token) :
    Option Expr × List Token :=
  match fuel with
  | 0 => (none, ts)
  | fuel + 1 =>
    let tokenPrec := getTokenPrecedence (cur ts)
    if tokenPrec < exprPrec then (some lhs, ts)
    else
      let binop := curChar (cur ts)
      let ts := adv ts  -- eat binop
      match parsePrimary fuel ts with
      | (none, ts') => (none, ts')
      | (some rhs, ts') =>
        let nextPrec := getTokenPrecedence (cur ts')
        let step : Option Expr × List Token :=
          if tokenPrec < nextPrec then parseBinOpRhs fuel (tokenPrec + 1) rhs ts'
          else (some rhs, ts')
        match step with
        | (none, ts'') => (none, ts'')
        | (some rhs', ts'') =>
          parseBinOpRhs fuel exprPrec (Expr.binop binop lhs rhs') ts''

/-- `parse_expression` (lines 322–328). -/
def parseExpression (fuel : Nat) (ts : List Token) : Option Expr × List Token :=
  match fuel with
  | 0 => (none, ts)
  | fuel + 1 =>
    match parsePrimary fuel ts with
    | (none, ts') => (none, ts')
    | (some lhs, ts') => parseBinOpRhs fuel 0 lhs ts'

end

/-! ## Precedence invariants of parsed expressions

A token stream without `(` is a flat operator sequence: every `primary`
is atomic (a number or a variable reference), so the shape of the parsed
tree is dictated purely by the precedence table. -/

/-- The token stream contains no `(`: no parenthesised sub-expressions
and no call expressions, only flat operator sequences. -/
def NoParen (ts : List Token) : Prop := Token.char '(' ∉ ts

instance (ts : List Token) : Decidable (NoParen ts) :=
  inferInstanceAs (Decidable (Token.char '(' ∉ ts))

/-- The precedence of the operator at the root of an expression; atoms
(literals, variable references, calls) never re-associate, so they count
as tighter than every table entry (the table's entries are ≤ 40). -/
def rootPrec : Expr → Int
  | Expr.binop op _ _ => getTokenPrecedence (Token.char op)
  | _ => 99

/-- The tree respects the precedence table: at every `BinaryOp`, the left
operand's root binds at least as tight as the node's operator (so runs of
equal precedence associate to the left), and the right operand's root
binds strictly tighter (so a higher-precedence operator to the right has
been absorbed into the right operand, never the other way round). -/
def precOK : Expr → Bool
  | Expr.binop op l r =>
    decide (getTokenPrecedence (Token.char op) ≤ rootPrec l) &&
    decide (getTokenPrecedence (Token.char op) < rootPrec r) &&
    precOK l && precOK r
  | _ => true

/-! ## Code generation (src/lang.cpp lines 391–505)

The target module (`the_module`) is the ordered list of its functions;
each `llvm::Function` is represented by its name and the names set on its
arguments (`arg.setName`, line 468).  The values built by the `IRBuilder`
are represented as a pure IR tree; `log_error_v` returning `nullptr` is
`Except.error` with the message printed (lines 396–399). -/

/-- An `llvm::Function` of the module, as observable by this program:
its name and its named `double` arguments. -/
structure Func where
  name : String
  argNames : List String
deriving Repr, DecidableEq

/-- An `llvm::Value` as built by the codegen methods. -/
inductive IRValue where
  | constFP (v : ℚ) : IRValue                          -- ConstantFP::get
  | arg (fn : String) (name : String) : IRValue        -- a function argument
  | fadd (l r : IRValue) : IRValue                     -- CreateFAdd "addtmp"
  | fsub (l r : IRValue) : IRValue                     -- CreateFSub "subtmp"
  | fmul (l r : IRValue) : IRValue                     -- CreateFMul "multmp"
  | fcmpULT (l r : IRValue) : IRValue                  -- CreateFCmpULT + CreateUIToFP
  | callInst (callee : String) (args : List IRValue) : IRValue  -- CreateCall
deriving Repr

/-- `Module::getFunction`: look a function up by name. -/
def getFunction : List Func → String → Option Func
  | [], _ => none
  | f :: fs, n => if f.name = n then some f else getFunction fs n

/-- How many functions of a given name the module holds (an LLVM module
keeps function names unique, so this is `0` or `1` in any state the
program can produce). -/
def countName : List Func → String → Nat
  | [], _ => 0
  | f :: fs, n => (if f.name = n then 1 else 0) + countName fs n

/-- `Function::eraseFromParent` (line 503): remove the function from the
module (the first entry of that name; LLVM modules never hold two
functions of the same name). -/
def eraseFunction (n : String) : List Func → List Func
  | [] => []
  | f :: fs => if f.name = n then fs else f :: eraseFunction n fs

/-- The `named_values` symbol table (`std::map<std::string, Value *>`). -/
def NamedValues := List (String × IRValue)

/-- `named_values[name] = &arg`: `std::map` insertion, overwriting any
earlier binding of the same key. -/
def nvInsert (nv : NamedValues) (n : String) (v : IRValue) : NamedValues :=
  match nv with
  | [] => [(n, v)]
  | (k, w) :: rest => if k = n then (n, v) :: rest else (k, w) :: nvInsert rest n v

/-- `named_values[name]` as read by `VariableExprAST::codegen` (line
407): `none` plays the role of the default-constructed `nullptr`. -/
def nvLookup (nv : NamedValues) (n : String) : Option IRValue :=
  match nv with
  | [] => none
  | (k, w) :: rest => if k = n then some w else nvLookup rest n

/-- The global codegen state read by expression lowering: `the_module`
and `named_values`. -/
structure CGState where
  module : List Func
  namedValues : NamedValues

mutual

/-- `ExprAST::codegen` for each node kind (lines 401–455). -/
def exprCodegen (s : CGState) : Expr → Except String IRValue
  | Expr.num v => Except.ok (IRValue.constFP v)
  | Expr.var name =>
    -- VariableExprAST::codegen, lines 405–413
    match nvLookup s.namedValues name with
    | some v => Except.ok v
    | none => Except.error "Unknown variable name"
  | Expr.binop op lhs rhs =>
    -- BinaryExprAST::codegen, lines 415–435: both operands are lowered
    -- first, then `if (!L || !R) return nullptr;`
    let L := exprCodegen s lhs
    let R := exprCodegen s rhs
    match L, R with
    | Except.error e, _ => Except.error e
    | _, Except.error e => Except.error e
    | Except.ok l, Except.ok r =>
      if op = '+' then Except.ok (IRValue.fadd l r)
      else if op = '-' then Except.ok (IRValue.fsub l r)
      else if op = '*' then Except.ok (IRValue.fmul l r)
      else if op = '<' then Except.ok (IRValue.fcmpULT l r)
      else Except.error "invalid binary operator"
  | Expr.call name args =>
    -- CallExprAST::codegen, lines 437–455
    match getFunction s.module name with
    | none => Except.error "Unknown function referenced"
    | some calleeFunc =>
      if calleeFunc.argNames.length ≠ args.length then
        Except.error "Incorrect # arguments passed"
      else
        match argsCodegen s args with
        | Except.error e => Except.error e
        | Except.ok vs => Except.ok (IRValue.callInst name vs)

/-- The argument loop of `CallExprAST::codegen` (lines 448–452):
arguments are lowered left-to-right, stopping at the first failure. -/
def argsCodegen (s : CGState) : List Expr → Except String (List IRValue)
  | [] => Except.ok []
  | a :: rest =>
    match exprCodegen s a with
    | Except.error e => Except.error e
    | Except.ok v =>
      match argsCodegen s rest with
      | Except.error e => Except.error e
      | Except.ok vs => Except.ok (v :: vs)

end

/-- `PrototypeAST::codegen` (lines 457–471): create the function with
`double` parameters, set the argument names from the prototype, append
it to the module.  Returns the created function and the new module. -/
def prototypeCodegen (p : Prototype) (m : List Func) : Func × List Func :=
  let f : Func := { name := p.name, argNames := p.args }
  (f, m ++ [f])

/-- Lines 474–481 of `FunctionAST::codegen`: check for an existing
function from a previous `extern` declaration; only if there is none,
emit the prototype. -/
def resolveFunc (p : Prototype) (m : List Func) : Func × List Func :=
  match getFunction m p.name with
  | some f => (f, m)
  | none => prototypeCodegen p m

/-- Lines 487–490 of `FunctionAST::codegen`: `named_values.clear();`
then record the arguments of `the_func` (under the names stored on that
function object) in the map. -/
def bodySymbolTable (theFunc : Func) : NamedValues :=
  theFunc.argNames.foldl
    (fun nv n => nvInsert nv n (IRValue.arg theFunc.name n)) []

/-- `FunctionAST::codegen` (lines 473–505).  `nv0` is the prior content
of the global `named_values`; it is cleared (line 488) before the body
is lowered, so it never influences the result.  On body failure the
function is erased from the module (line 503) and `nullptr` is
returned. -/
def functionCodegen (p : Prototype) (body : Expr) (nv0 : NamedValues) (m : List Func) :
    Except String Func × List Func :=
  let theFunc := (resolveFunc p m).1
  let m' := (resolveFunc p m).2
  let _ := nv0  -- named_values.clear(): the previous table is discarded
  let nv := bodySymbolTable theFunc
  match exprCodegen { module := m', namedValues := nv } body with
  | Except.ok _ => (Except.ok theFunc, m')
  | Except.error e => (Except.error e, eraseFunction theFunc.name m')

/-! ## Helper lemmas about the module model -/

theorem getFunction_some_name {m : List Func} {n : String} {f : Func}
    (h : getFunction m n = some f) : f.name = n := by
  induction m with
  | nil => simp [getFunction] at h
  | cons g gs ih =>
    by_cases hg : g.name = n
    · simp [getFunction, hg] at h
      simpa [← h]
    · simp [getFunction, hg] at h
      exact ih h

theorem getFunction_eq_none_iff (m : List Func) (n : String) :
    getFunction m n = none ↔ countName m n = 0 := by
  induction m with
  | nil => simp [getFunction, countName]
  | cons g gs ih =>
    by_cases hg : g.name = n <;> simp [getFunction, countName, hg, ih]

theorem one_le_countName_of_getFunction {m : List Func} {n : String} {f : Func}
    (h : getFunction m n = some f) : 1 ≤ countName m n := by
  by_contra hc
  have h0 : countName m n = 0 := by omega
  rw [← getFunction_eq_none_iff] at h0
  simp [h0] at h

theorem countName_append (m₁ m₂ : List Func) (n : String) :
    countName (m₁ ++ m₂) n = countName m₁ n + countName m₂ n := by
  induction m₁ with
  | nil => simp [countName]
  | cons g gs ih => simp [countName, ih]; omega

theorem countName_eraseFunction (m : List Func) (n : String) :
    countName (eraseFunction n m) n = countName m n - 1 := by
  induction m with
  | nil => simp [eraseFunction, countName]
  | cons g gs ih =>
    by_cases hg : g.name = n
    · simp [eraseFunction, countName, hg]
    · simp only [eraseFunction, countName, hg, if_neg hg, if_false, ih]
      omega

theorem getFunction_append_singleton {m : List Func} {f : Func}
    (h : getFunction m f.name = none) : getFunction (m ++ [f]) f.name = some f := by
  induction m with
  | nil => simp [getFunction]
  | cons g gs ih =>
    by_cases hg : g.name = f.name
    · simp [getFunction, hg] at h
    · simp [getFunction, hg] at h ⊢
      exact ih h

theorem resolveFunc_name (p : Prototype) (m : List Func) :
    ((resolveFunc p m).1).name = p.name := by
  unfold resolveFunc
  cases h : getFunction m p.name with
  | none => simp [prototypeCodegen]
  | some f => simpa using getFunction_some_name h

theorem countName_resolveFunc (p : Prototype) (m : List Func)
    (h : countName m p.name ≤ 1) :
    countName (resolveFunc p m).2 p.name = 1 := by
  unfold resolveFunc
  cases hf : getFunction m p.name with
  | none =>
    have h0 : countName m p.name = 0 := (getFunction_eq_none_iff m p.name).mp hf
    simp [prototypeCodegen, countName_append, countName, h0]
  | some f =>
    have h1 := one_le_countName_of_getFunction hf
    simp
    omega

/-! ## Helper lemmas for the precedence invariant -/

theorem getTokenPrecedence_le_forty (t : Token) : getTokenPrecedence t ≤ 40 := by
  cases t with
  | char c =>
    simp only [getTokenPrecedence]
    split_ifs <;> decide
  | eof => decide
  | kwDef => decide
  | kwExtern => decide
  | ident s => simp [getTokenPrecedence]
  | number v => simp [getTokenPrecedence]

theorem cur_mem_or_eof (ts : List Token) : cur ts ∈ ts ∨ cur ts = Token.eof := by
  cases ts <;> simp [cur]

theorem cur_ne_lparen {ts : List Token} (h : NoParen ts) : cur ts ≠ Token.char '(' := by
  intro hc
  rcases cur_mem_or_eof ts with hm | he
  · exact h (hc ▸ hm)
  · rw [hc] at he
    cases he

theorem NoParen.adv {ts : List Token} (h : NoParen ts) : NoParen (DummyLang.adv ts) := by
  cases ts with
  | nil => exact h
  | cons t rest => exact fun hm => h (List.mem_cons_of_mem _ hm)

/-- With no `(` in the stream, every successful `parse_primary` yields an
atom — a number literal or a variable reference — and consumes exactly
the one token it dispatched on. -/
theorem parsePrimary_atom {fuel : Nat} {ts rest : List Token} {e : Expr}
    (hnp : NoParen ts) (h : parsePrimary fuel ts = (some e, rest)) :
    rootPrec e = 99 ∧ precOK e = true ∧ rest = adv ts := by
  match fuel with
  | 0 => simp [parsePrimary] at h
  | fuel + 1 =>
    cases hct : cur ts with
    | ident name =>
      match fuel with
      | 0 => simp [parsePrimary, parseIdentifierExpression, hct] at h
      | fuel + 1 =>
        have hne : cur (adv ts) ≠ Token.char '(' := cur_ne_lparen hnp.adv
        simp only [parsePrimary, parseIdentifierExpression, hct, if_pos hne,
          Prod.mk.injEq, Option.some.injEq] at h
        obtain ⟨rfl, rfl⟩ := h
        exact ⟨rfl, rfl, rfl⟩
    | number v =>
      simp only [parsePrimary, parseNumberExpression, hct, Prod.mk.injEq,
        Option.some.injEq] at h
      obtain ⟨rfl, rfl⟩ := h
      exact ⟨rfl, rfl, rfl⟩
    | char c =>
      by_cases hc : c = '('
      · exact absurd (hc ▸ hct) (cur_ne_lparen hnp)
      · simp [parsePrimary, hct, hc] at h
    | eof => simp [parsePrimary, hct] at h
    | kwDef => simp [parsePrimary, hct] at h
    | kwExtern => simp [parsePrimary, hct] at h

/-- The precedence-climbing invariant of `parse_bin_op_rhs` on
parenthesis-free streams.  If the loop is entered at minimal precedence
`p` with a well-formed left operand whose root binds at least as tight
as the operator under the cursor, then the result is well formed, its
root binds at least as tight as `min p (rootPrec lhs)`, and the loop
stops only at an operator looser than `p`. -/
theorem parseBinOpRhs_invariant (fuel : Nat) :
    ∀ (p : Int) (lhs : Expr) (ts : List Token) (e : Expr) (rest : List Token),
      0 ≤ p → NoParen ts → precOK lhs = true →
      getTokenPrecedence (cur ts) ≤ rootPrec lhs →
      parseBinOpRhs fuel p lhs ts = (some e, rest) →
      precOK e = true ∧ min p (rootPrec lhs) ≤ rootPrec e ∧
        getTokenPrecedence (cur rest) < p ∧ NoParen rest := by
  induction fuel with
  | zero =>
    intro p lhs ts e rest _ _ _ _ h
    simp [parseBinOpRhs] at h
  | succ fuel ih =>
    intro p lhs ts e rest hp hnp hok hcur h
    simp only [parseBinOpRhs] at h
    by_cases htp : getTokenPrecedence (cur ts) < p
    · rw [if_pos htp] at h
      simp only [Prod.mk.injEq, Option.some.injEq] at h
      obtain ⟨rfl, rfl⟩ := h
      exact ⟨hok, min_le_right _ _, htp, hnp⟩
    · have h0 : (0 : Int) ≤ getTokenPrecedence (cur ts) := le_trans hp (not_lt.mp htp)
      cases hct : cur ts with
      | eof => rw [hct] at h0; simp [getTokenPrecedence] at h0
      | kwDef => rw [hct] at h0; simp [getTokenPrecedence] at h0
      | kwExtern => rw [hct] at h0; simp [getTokenPrecedence] at h0
      | ident s => rw [hct] at h0; simp [getTokenPrecedence] at h0
      | number v => rw [hct] at h0; simp [getTokenPrecedence] at h0
      | char c =>
        rw [hct] at h htp hcur
        rw [if_neg htp] at h
        simp only [curChar] at h
        rcases hpp : parsePrimary fuel (adv ts) with ⟨r, ts'⟩
        rw [hpp] at h
        cases r with
        | none => simp at h
        | some rhs =>
          replace h :
              (match
                (if getTokenPrecedence (Token.char c) < getTokenPrecedence (cur ts') then
                  parseBinOpRhs fuel (getTokenPrecedence (Token.char c) + 1) rhs ts'
                else (some rhs, ts')) with
              | (none, ts'') => ((none : Option Expr), ts'')
              | (some rhs', ts'') => parseBinOpRhs fuel p (Expr.binop c lhs rhs') ts'') =
              (some e, rest) := h
          obtain ⟨hrp, hrx, hts'⟩ := parsePrimary_atom hnp.adv hpp
          have hnp' : NoParen ts' := by
            rw [hts']
            exact hnp.adv.adv
          have htp40 : getTokenPrecedence (Token.char c) ≤ 40 :=
            getTokenPrecedence_le_forty _
          have hple : p ≤ getTokenPrecedence (Token.char c) := not_lt.mp htp
          by_cases hnext :
              getTokenPrecedence (Token.char c) < getTokenPrecedence (cur ts')
          · rw [if_pos hnext] at h
            rcases hstep :
                parseBinOpRhs fuel (getTokenPrecedence (Token.char c) + 1) rhs ts' with
              ⟨r2, ts''⟩
            rw [hstep] at h
            cases r2 with
            | none => simp at h
            | some rhs' =>
              replace h : parseBinOpRhs fuel p (Expr.binop c lhs rhs') ts'' =
                  (some e, rest) := h
              obtain ⟨hok2, hmin2, hlt2, hnp2⟩ :=
                ih _ _ _ _ _ (by omega) hnp' hrx
                  (by rw [hrp]; exact le_trans (getTokenPrecedence_le_forty _) (by norm_num))
                  hstep
              rw [hrp, min_eq_left (by omega : getTokenPrecedence (Token.char c) + 1 ≤ 99)]
                at hmin2
              have hmok : precOK (Expr.binop c lhs rhs') = true := by
                simp only [precOK, Bool.and_eq_true, decide_eq_true_eq]
                exact ⟨⟨⟨hcur, by omega⟩, hok⟩, hok2⟩
              have hcur2 :
                  getTokenPrecedence (cur ts'') ≤ rootPrec (Expr.binop c lhs rhs') := by
                simp only [rootPrec]
                omega
              obtain ⟨hokE, hminE, hltE, hnpE⟩ := ih _ _ _ _ _ hp hnp2 hmok hcur2 h
              refine ⟨hokE, ?_, hltE, hnpE⟩
              rw [show rootPrec (Expr.binop c lhs rhs') = getTokenPrecedence (Token.char c)
                    from rfl,
                  min_eq_left hple] at hminE
              exact le_trans (min_le_left _ _) hminE
          · rw [if_neg hnext] at h
            replace h : parseBinOpRhs fuel p (Expr.binop c lhs rhs) ts' =
                (some e, rest) := h
            have hmok : precOK (Expr.binop c lhs rhs) = true := by
              simp only [precOK, Bool.and_eq_true, decide_eq_true_eq]
              exact ⟨⟨⟨hcur, by rw [hrp]; omega⟩, hok⟩, hrx⟩
            have hcur2 :
                getTokenPrecedence (cur ts') ≤ rootPrec (Expr.binop c lhs rhs) := by
              simp only [rootPrec]
              exact not_lt.mp hnext
            obtain ⟨hokE, hminE, hltE, hnpE⟩ := ih _ _ _ _ _ hp hnp' hmok hcur2 h
            refine ⟨hokE, ?_, hltE, hnpE⟩
            rw [show rootPrec (Expr.binop c lhs rhs) = getTokenPrecedence (Token.char c)
                  from rfl,
                min_eq_left hple] at hminE
            exact le_trans (min_le_left _ _) hminE

/-- Every successful `parse_expression` on a parenthesis-free token
stream produces a tree that respects the precedence table. -/
theorem parseExpression_precOK {fuel : Nat} {ts rest : List Token} {e : Expr}
    (hnp : NoParen ts) (h : parseExpression fuel ts = (some e, rest)) :
    precOK e = true := by
  match fuel with
  | 0 => simp [parseExpression] at h
  | fuel + 1 =>
    simp only [parseExpression] at h
    rcases hpp : parsePrimary fuel ts with ⟨r, ts'⟩
    rw [hpp] at h
    cases r with
    | none => simp at h
    | some lhs =>
      obtain ⟨hrp, hrx, hts'⟩ := parsePrimary_atom hnp hpp
      have hnp' : NoParen ts' := by
        rw [hts']
        exact hnp.adv
      exact (parseBinOpRhs_invariant fuel 0 lhs ts' e rest (by norm_num) hnp' hrx
        (by rw [hrp]; exact le_trans (getTokenPrecedence_le_forty _) (by norm_num)) h).1

theorem nvLookup_nvInsert_ne (nv : NamedValues) {n x : String} (v : IRValue)
    (h : x ≠ n) : nvLookup (nvInsert nv n v) x = nvLookup nv x := by
  induction nv with
  | nil => simp [nvInsert, nvLookup, Ne.symm h]
  | cons kv rest ih =>
    obtain ⟨k, w⟩ := kv
    by_cases hk : k = n
    · subst hk
      simp [nvInsert, nvLookup, Ne.symm h]
    · simp [nvInsert, nvLookup, hk, ih]

theorem nvLookup_foldl_insert_not_mem (g : String → IRValue) (l : List String)
    (nv : NamedValues) (x : String) (hx : x ∉ l) :
    nvLookup (l.foldl (fun acc n => nvInsert acc n (g n)) nv) x = nvLookup nv x := by
  induction l generalizing nv with
  | nil => rfl
  | cons n l' ih =>
    have hxn : x ≠ n := fun h => hx (by simp [h])
    have hxl : x ∉ l' := fun h => hx (by simp [h])
    rw [List.foldl_cons, ih _ hxl, nvLookup_nvInsert_ne _ _ hxn]

theorem bodySymbolTable_not_mem {f : Func} {x : String} (hx : x ∉ f.argNames) :
    nvLookup (bodySymbolTable f) x = none := by
  simpa [bodySymbolTable] using
    nvLookup_foldl_insert_not_mem (fun n => IRValue.arg f.name n) f.argNames [] x hx

/-! ## Helper lemma about the call-argument loop -/

theorem argsCodegen_error_first (s : CGState) (pre : List Expr) (a : Expr)
    (post : List Expr) (e : String)
    (hpre : ∀ x ∈ pre, ∃ v, exprCodegen s x = Except.ok v)
    (ha : exprCodegen s a = Except.error e) :
    argsCodegen s (pre ++ a :: post) = Except.error e := by
  induction pre with
  | nil => simp [argsCodegen, ha]
  | cons b bs ih =>
    obtain ⟨v, hv⟩ := hpre b (by simp)
    simp [argsCodegen, hv, ih (fun x hx => hpre x (by simp [hx]))]

/-! ## Claim theorems -/

/-- Claim C1: false on the code.  The number-scanning loop of
`get_token` never appends the characters it reads to `number_str`, so
the payload of every number token is `strtod("") = 0`, not the decimal
parse of the scanned text: scanning the input `"1.5"` produces a number
token with payload `0`, while the standard decimal parse of the text
that was scanned is `3/2`. -/
theorem number_token_payload_ignores_scanned_text :
    getToken (some ' ') "1.5".toList = (Token.number (parseDecimalQ ""), none, []) ∧
    parseDecimalQ "" = 0 ∧
    parseDecimalQ "1.5" = 3 / 2 ∧ (0 : ℚ) ≠ 3 / 2 := by
  refine ⟨rfl, ?_, ?_, by norm_num⟩
  · have h : parseDecimalQ "" = ((0 : ℕ) : ℚ) + ((0 : ℕ) : ℚ) / ((10 : ℚ) ^ (0 : ℕ)) := rfl
    rw [h]
    norm_num
  · have h : parseDecimalQ "1.5" =
        ((1 : ℕ) : ℚ) + ((5 : ℕ) : ℚ) / ((10 : ℚ) ^ (1 : ℕ)) := rfl
    rw [h]
    norm_num

/-- Claim C2: false on the code.  In `parse_identifier_expression`, a
failed argument parse is silently skipped (the `nullptr` is simply not
pushed; there is no early return), so a call parse can succeed with the
failed argument dropped: on the token stream of `foo(())` the inner
argument `()` fails to parse (first conjunct: the same expression parse
on the argument tokens reports failure), yet the call parse returns the
node `Call("foo", [])` rather than failing (second conjunct). -/
theorem call_parse_drops_failed_argument :
    parseExpression 8 [Token.char '(', Token.char ')', Token.char ')'] =
      (none, [Token.char ')', Token.char ')']) ∧
    parsePrimary 10 [Token.ident "foo", Token.char '(', Token.char '(',
        Token.char ')', Token.char ')'] =
      (some (Expr.call "foo" []), [Token.char ')']) :=
  ⟨rfl, rfl⟩

/-- Claim C3: with the registered table `<`:10, `+`:20, `-`:20, `*`:40,
the token sequence of `1+2*3` parses as
`BinaryOp('+', 1, BinaryOp('*', 2, 3))` (so never as the left-grouped
product), and for every parenthesis-free operator sequence the parsed
tree respects the table: at each node the left operand's root binds at
least as tight and the right operand's root strictly tighter than the
node's operator, so higher-precedence operators always bind tighter. -/
theorem precedence_climbing_respects_table :
    parseExpression 10 [Token.number 1, Token.char '+', Token.number 2,
        Token.char '*', Token.number 3] =
      (some (Expr.binop '+' (Expr.num 1)
        (Expr.binop '*' (Expr.num 2) (Expr.num 3))), []) ∧
    (∀ (fuel : Nat) (ts rest : List Token) (e : Expr),
      NoParen ts → parseExpression fuel ts = (some e, rest) → precOK e = true) :=
  ⟨rfl, fun _ _ _ _ hnp h => parseExpression_precOK hnp h⟩

/-- Witness for C3 at a concrete input: the parse of `1+2*3` satisfies
the precedence invariant. -/
theorem precedence_climbing_respects_table_witness :
    precOK (Expr.binop '+' (Expr.num 1)
      (Expr.binop '*' (Expr.num 2) (Expr.num 3))) = true :=
  precedence_climbing_respects_table.2 10
    [Token.number 1, Token.char '+', Token.number 2, Token.char '*', Token.number 3]
    [] _ (by decide) precedence_climbing_respects_table.1

/-- Claim C4: equal-precedence operators are left-associative: the token
sequence of `1-2-3` parses as `BinaryOp('-', BinaryOp('-',1,2), 3)`;
moreover on any parenthesis-free stream, whenever the parsed tree has a
`BinaryOp` directly as the right operand of another, the inner operator
binds strictly tighter — so a run of equal-precedence operators can only
nest to the left. -/
theorem equal_precedence_left_associative :
    parseExpression 10 [Token.number 1, Token.char '-', Token.number 2,
        Token.char '-', Token.number 3] =
      (some (Expr.binop '-' (Expr.binop '-' (Expr.num 1) (Expr.num 2))
        (Expr.num 3)), []) ∧
    (∀ (fuel : Nat) (ts rest : List Token) (op op' : Char) (l rl rr : Expr),
      NoParen ts →
      parseExpression fuel ts = (some (Expr.binop op l (Expr.binop op' rl rr)), rest) →
      getTokenPrecedence (Token.char op) < getTokenPrecedence (Token.char op')) := by
  constructor
  · rfl
  · intro fuel ts rest op op' l rl rr hnp h
    have hok := parseExpression_precOK hnp h
    simp only [precOK, Bool.and_eq_true, decide_eq_true_eq] at hok
    have h2 := hok.1.1.2
    simpa [rootPrec] using h2

/-- Witness for C4 at a concrete input: in the parse of `1+2*3` the
right-nested operator `*` binds strictly tighter than `+`. -/
theorem equal_precedence_left_associative_witness :
    getTokenPrecedence (Token.char '+') < getTokenPrecedence (Token.char '*') :=
  equal_precedence_left_associative.2 10
    [Token.number 1, Token.char '+', Token.number 2, Token.char '*', Token.number 3]
    [] '+' '*' (Expr.num 1) (Expr.num 2) (Expr.num 3) (by decide) (by rfl)

/-- Claim C5: if lowering the body of a `Function` fails, the failure is
returned to the caller and the (possibly partially built) function is
erased from the module: afterwards no function of that name is
observable.  The hypothesis `countName m p.name ≤ 1` is the LLVM module
invariant that function names are unique. -/
theorem failed_body_lowering_erases_function (p : Prototype) (body : Expr)
    (nv0 : NamedValues) (m : List Func) (e : String)
    (huniq : countName m p.name ≤ 1)
    (hbody : exprCodegen ⟨(resolveFunc p m).2, bodySymbolTable (resolveFunc p m).1⟩
        body = Except.error e) :
    (functionCodegen p body nv0 m).1 = Except.error e ∧
    getFunction (functionCodegen p body nv0 m).2 p.name = none := by
  have hname := resolveFunc_name p m
  have hcount := countName_resolveFunc p m huniq
  simp only [functionCodegen, hbody]
  refine ⟨trivial, ?_⟩
  rw [hname, getFunction_eq_none_iff, countName_eraseFunction, hcount]

/-- Witness for C5: lowering `def foo(a) b` on the empty module fails
with "Unknown variable name" and leaves no `foo` in the module. -/
theorem failed_body_lowering_erases_function_witness :
    (functionCodegen ⟨"foo", ["a"]⟩ (Expr.var "b") [] []).1 =
      Except.error "Unknown variable name" ∧
    getFunction (functionCodegen ⟨"foo", ["a"]⟩ (Expr.var "b") [] []).2 "foo" = none :=
  failed_body_lowering_erases_function ⟨"foo", ["a"]⟩ (Expr.var "b") [] []
    "Unknown variable name" (by decide) (by rfl)

/-- Claim C6: lowering `extern foo(a b)` declares `foo` once, and a
later `def foo(a b) a+b` finds the existing declaration and reuses it:
the lowering succeeds returning that same function object, the module is
unchanged, and it holds exactly one entry named `foo`, not two. -/
theorem extern_then_def_reuses_single_entry :
    (prototypeCodegen ⟨"foo", ["a", "b"]⟩ []).2 = [⟨"foo", ["a", "b"]⟩] ∧
    functionCodegen ⟨"foo", ["a", "b"]⟩
        (Expr.binop '+' (Expr.var "a") (Expr.var "b")) [] [⟨"foo", ["a", "b"]⟩] =
      (Except.ok ⟨"foo", ["a", "b"]⟩, [⟨"foo", ["a", "b"]⟩]) ∧
    countName [(⟨"foo", ["a", "b"]⟩ : Func)] "foo" = 1 :=
  ⟨rfl, rfl, rfl⟩

/-- Claim C7: lowering a `Call` fails with "Unknown function referenced"
when the callee is not declared in the module, fails with
"Incorrect # arguments passed" when the argument count differs from the
callee's declared parameter count, and otherwise lowers the arguments
left-to-right, failing with the first failing argument's error. -/
theorem call_lowering_checks_and_order :
    (∀ (m : List Func) (nv : NamedValues) (name : String) (args : List Expr),
      getFunction m name = none →
      exprCodegen { module := m, namedValues := nv } (Expr.call name args) =
        Except.error "Unknown function referenced") ∧
    (∀ (m : List Func) (nv : NamedValues) (name : String) (args : List Expr) (f : Func),
      getFunction m name = some f → f.argNames.length ≠ args.length →
      exprCodegen { module := m, namedValues := nv } (Expr.call name args) =
        Except.error "Incorrect # arguments passed") ∧
    (∀ (m : List Func) (nv : NamedValues) (name : String) (f : Func)
        (pre : List Expr) (a : Expr) (post : List Expr) (e : String),
      getFunction m name = some f →
      f.argNames.length = (pre ++ a :: post).length →
      (∀ x ∈ pre, ∃ v, exprCodegen { module := m, namedValues := nv } x = Except.ok v) →
      exprCodegen { module := m, namedValues := nv } a = Except.error e →
      exprCodegen { module := m, namedValues := nv } (Expr.call name (pre ++ a :: post)) =
        Except.error e) := by
  refine ⟨?_, ?_, ?_⟩
  · intro m nv name args hf
    simp [exprCodegen, hf]
  · intro m nv name args f hf hlen
    simp [exprCodegen, hf, hlen]
  · intro m nv name f pre a post e hf hlen hpre ha
    have hargs := argsCodegen_error_first { module := m, namedValues := nv } pre a post e hpre ha
    simp [exprCodegen, hf, hlen, hargs]

/-- Witness for C7 at concrete inputs: an undeclared callee, a declared
callee with the wrong argument count, and a call whose (first) argument
fails to lower. -/
theorem call_lowering_checks_and_order_witness :
    exprCodegen { module := [], namedValues := [] } (Expr.call "bar" []) =
      Except.error "Unknown function referenced" ∧
    exprCodegen { module := [⟨"foo", ["a"]⟩], namedValues := [] } (Expr.call "foo" []) =
      Except.error "Incorrect # arguments passed" ∧
    exprCodegen { module := [⟨"foo", ["a"]⟩], namedValues := [] }
        (Expr.call "foo" [Expr.var "x"]) = Except.error "Unknown variable name" :=
  ⟨call_lowering_checks_and_order.1 [] [] "bar" [] rfl,
   call_lowering_checks_and_order.2.1 [⟨"foo", ["a"]⟩] [] "foo" [] ⟨"foo", ["a"]⟩
     rfl (by decide),
   call_lowering_checks_and_order.2.2 [⟨"foo", ["a"]⟩] [] "foo" ⟨"foo", ["a"]⟩
     [] (Expr.var "x") [] "Unknown variable name" rfl rfl
     (fun x hx => absurd hx (List.not_mem_nil x)) rfl⟩

/-- Claim C8: lowering a function body resolves variables only against
the enclosing function's own symbol table, which is reset and
repopulated from the function's parameters before the body is lowered:
the prior content of `named_values` never influences the result (first
conjunct), and a variable reference to any name outside the enclosing
function's parameter list fails with "Unknown variable name" regardless
of what the prior table contained (second conjunct). -/
theorem variable_lowering_uses_fresh_param_table :
    (∀ (p : Prototype) (body : Expr) (nv0 nv0' : NamedValues) (m : List Func),
      functionCodegen p body nv0 m = functionCodegen p body nv0' m) ∧
    (∀ (p : Prototype) (nv0 : NamedValues) (m : List Func) (x : String),
      x ∉ ((resolveFunc p m).1).argNames →
      (functionCodegen p (Expr.var x) nv0 m).1 =
        Except.error "Unknown variable name") := by
  refine ⟨fun p body nv0 nv0' m => rfl, ?_⟩
  intro p nv0 m x hx
  have hlook : nvLookup (bodySymbolTable (resolveFunc p m).1) x = none :=
    bodySymbolTable_not_mem hx
  simp [functionCodegen, exprCodegen, hlook]

/-- Witness for C8: lowering `def foo(a) y` fails with "Unknown variable
name" even though `y` (a parameter of a previously lowered `bar`) is in
the prior symbol table. -/
theorem variable_lowering_uses_fresh_param_table_witness :
    (functionCodegen ⟨"foo", ["a"]⟩ (Expr.var "y")
        [("y", IRValue.arg "bar" "y")] []).1 =
      Except.error "Unknown variable name" :=
  variable_lowering_uses_fresh_param_table.2 ⟨"foo", ["a"]⟩
    [("y", IRValue.arg "bar" "y")] [] "y" (by decide)

/-- Claim C9: when a `def` of name `N` reuses an existing declaration
(from a prior `extern N(qs)`), the body's symbol table is built from the
parameter names stored on that existing declaration, not from the def's
own prototype: the reused function object carries the extern's parameter
names (first conjunct), and a body reference to one of the def's own
parameter names that the extern did not declare fails with "Unknown
variable name" (second conjunct). -/
theorem def_body_table_from_existing_declaration :
    ∀ (name : String) (qs ps : List String) (x : String) (nv0 : NamedValues)
      (m0 : List Func),
      getFunction m0 name = none → x ∈ ps → x ∉ qs →
      (resolveFunc ⟨name, ps⟩ ((prototypeCodegen ⟨name, qs⟩ m0).2)).1 = ⟨name, qs⟩ ∧
      (functionCodegen ⟨name, ps⟩ (Expr.var x) nv0
          ((prototypeCodegen ⟨name, qs⟩ m0).2)).1 =
        Except.error "Unknown variable name" := by
  intro name qs ps x nv0 m0 h0 hxp hxq
  have hget : getFunction (m0 ++ [⟨name, qs⟩]) name = some ⟨name, qs⟩ :=
    getFunction_append_singleton h0
  have hres : (resolveFunc ⟨name, ps⟩ (m0 ++ [⟨name, qs⟩])).1 = ⟨name, qs⟩ := by
    simp [resolveFunc, hget]
  have hlook : nvLookup (bodySymbolTable (⟨name, qs⟩ : Func)) x = none :=
    bodySymbolTable_not_mem hxq
  refine ⟨by simpa [prototypeCodegen] using hres, ?_⟩
  simp [functionCodegen, prototypeCodegen, exprCodegen, hres, hlook]

/-- Witness for C9: after `extern foo(a b)`, lowering
`def foo(x y) x` fails with "Unknown variable name" because the reused
declaration's stored parameter names are `a b`, not `x y`. -/
theorem def_body_table_from_existing_declaration_witness :
    (resolveFunc ⟨"foo", ["x", "y"]⟩
        ((prototypeCodegen ⟨"foo", ["a", "b"]⟩ []).2)).1 = ⟨"foo", ["a", "b"]⟩ ∧
    (functionCodegen ⟨"foo", ["x", "y"]⟩ (Expr.var "x") []
        ((prototypeCodegen ⟨"foo", ["a", "b"]⟩ []).2)).1 =
      Except.error "Unknown variable name" :=
  def_body_table_from_existing_declaration "foo" ["a", "b"] ["x", "y"] "x" [] []
    rfl (by decide) (by decide)

/-- Claim C10: if a `def` of `N` reuses the declaration created by a
prior `extern N(...)` and its body fails to lower, the rollback erases
the reused function object itself: the def did reuse the extern's
function (first conjunct), and afterwards the module holds no
declaration of `N` at all — the extern's signature is lost, not
restored (second conjunct). -/
theorem failed_def_after_extern_removes_declaration :
    ∀ (name : String) (qs ps : List String) (body : Expr) (nv0 : NamedValues)
      (m0 : List Func) (e : String),
      getFunction m0 name = none →
      (functionCodegen ⟨name, ps⟩ body nv0 ((prototypeCodegen ⟨name, qs⟩ m0).2)).1 =
        Except.error e →
      (resolveFunc ⟨name, ps⟩ ((prototypeCodegen ⟨name, qs⟩ m0).2)).1 = ⟨name, qs⟩ ∧
      getFunction
        (functionCodegen ⟨name, ps⟩ body nv0 ((prototypeCodegen ⟨name, qs⟩ m0).2)).2
        name = none := by
  intro name qs ps body nv0 m0 e h0 hfail
  have hget : getFunction (m0 ++ [⟨name, qs⟩]) name = some ⟨name, qs⟩ :=
    getFunction_append_singleton h0
  have hres1 : (resolveFunc ⟨name, ps⟩ (m0 ++ [⟨name, qs⟩])).1 = ⟨name, qs⟩ := by
    simp [resolveFunc, hget]
  have hres2 : (resolveFunc ⟨name, ps⟩ (m0 ++ [⟨name, qs⟩])).2 = m0 ++ [⟨name, qs⟩] := by
    simp [resolveFunc, hget]
  have hc0 : countName m0 name = 0 := (getFunction_eq_none_iff m0 name).mp h0
  refine ⟨by simpa [prototypeCodegen] using hres1, ?_⟩
  simp only [prototypeCodegen] at hfail ⊢
  cases hb : exprCodegen ⟨(resolveFunc ⟨name, ps⟩ (m0 ++ [⟨name, qs⟩])).2,
      bodySymbolTable (resolveFunc ⟨name, ps⟩ (m0 ++ [⟨name, qs⟩])).1⟩ body with
  | ok v => simp [functionCodegen, hb] at hfail
  | error e' =>
    simp only [functionCodegen, hb]
    rw [hres1, hres2]
    rw [show (⟨name, qs⟩ : Func).name = name from rfl]
    rw [getFunction_eq_none_iff, countName_eraseFunction, countName_append]
    simp [countName, hc0]

/-- Witness for C10: after `extern foo(a b)`, the failing
`def foo(x y) x` leaves a module with no `foo` at all. -/
theorem failed_def_after_extern_removes_declaration_witness :
    (resolveFunc ⟨"foo", ["x", "y"]⟩
        ((prototypeCodegen ⟨"foo", ["a", "b"]⟩ []).2)).1 = ⟨"foo", ["a", "b"]⟩ ∧
    getFunction
      (functionCodegen ⟨"foo", ["x", "y"]⟩ (Expr.var "x") []
        ((prototypeCodegen ⟨"foo", ["a", "b"]⟩ []).2)).2 "foo" = none :=
  failed_def_after_extern_removes_declaration "foo" ["a", "b"] ["x", "y"]
    (Expr.var "x") [] [] "Unknown variable name" rfl (by rfl)

end DummyLang
